import Mathlib

/-
Shallow embedding of the go-langserver signature-help engine
(langserver/signature.go) and the path/URI utility helpers of the
langserver package, with proofs of the specification's properties.

Go strings are modelled as lists of characters, Go slice loops as list
recursion, and `token.Pos` as a natural number.  The immutable program
snapshot (`loader.Program` plus `loader.PackageInfo`) is modelled by the
two lookups the handler performs on it: `PathEnclosingInterval` and
`ObjectOf`.
-/

/-- Go strings, modelled as lists of characters. -/
abbrev Str := List Char

/-- Model of `strings.Contains(s, substr)`: does `substr` occur inside `s`? -/
def strContains : Str → Str → Bool
  | [], substr => substr.isEmpty
  | c :: rest, substr => substr.isPrefixOf (c :: rest) || strContains rest substr

/-- Model of `strings.Replace(s, old, new, 1)`: replace the first occurrence
of `old` in `s` by `new` (when `old` is empty, Go inserts `new` in front). -/
def replaceFirst : Str → Str → Str → Str
  | [], old, new => if old.isPrefixOf [] then new else []
  | c :: rest, old, new =>
    if old.isPrefixOf (c :: rest) then new ++ (c :: rest).drop old.length
    else c :: replaceFirst rest old new

/-- Model of `strings.Join(elems, ", ")` as used by `funcInfo`. -/
def joinCommaSpace : List Str → Str
  | [] => []
  | [s] => s
  | s :: t :: rest => s ++ ", ".data ++ joinCommaSpace (t :: rest)

/-- The character `os.PathSeparator` expands to on the (non-Windows) target
platform. -/
def pathSeparator : Char := '/'

/-- Model of `PathHasPrefix` (util.go): build `prefixSlash` only when the
prefix is non-empty and does not already end with the separator, then test
`s == prefix || strings.HasPrefix(s, prefixSlash)`. -/
def PathHasPrefix (s p : Str) : Bool :=
  let prefixSlash : Str :=
    if !p.isEmpty && !([pathSeparator].isSuffixOf p) then p ++ [pathSeparator]
    else []
  s == p || prefixSlash.isPrefixOf s

/-- Model of `IsVendorDir` (util.go): `strings.HasPrefix(dir, "vendor/") ||
strings.Contains(dir, "/vendor/")`. -/
def IsVendorDir (dir : Str) : Bool :=
  ("vendor/".data).isPrefixOf dir || strContains dir ("/vendor/".data)

/-- Model of `pathToURI` (util.go): prepend the `file://` scheme to an
absolute path. -/
def pathToURI (path : Str) : Str := "file://".data ++ path

/-- Modelled from the spec: the Go standard library's `url.Parse` (not part
of this repository) as consumed by `uriToPath` — "URI↔path conversion is a
straightforward scheme-prefix add/strip".  For a `file://` URI the parser
cuts the fragment at `#`, the query at `?`, strips the scheme, and takes the
path as everything from the first slash after the authority; inputs without
percent-escapes are kept verbatim. -/
def urlParsePath (uri : Str) : Str :=
  let noFrag := uri.takeWhile (fun c => c ≠ '#')
  let noQuery := noFrag.takeWhile (fun c => c ≠ '?')
  if ("file://".data).isPrefixOf noQuery then
    (noQuery.drop ("file://".data).length).dropWhile (fun c => c ≠ '/')
  else noQuery

/-- Model of `uriToPath` (util.go) on a non-Windows platform: return the
parsed URI's path component unchanged (the `runtime.GOOS == "windows"`
branch is not taken). -/
def uriToPath (uri : Str) : Str := urlParsePath uri

/-- Splitting a path into its `/`-separated segments (the path-segment view
the spec uses to describe `IsVendorDir`). -/
def splitSeg : Str → List Str
  | [] => [[]]
  | c :: rest =>
    if c = '/' then [] :: splitSeg rest
    else
      match splitSeg rest with
      | [] => [[c]]
      | seg :: segs => (c :: seg) :: segs

/-- Predicate written from the spec's words for `IsVendorDir`: the directory
is, or contains, a path segment literally named `vendor`. -/
def specIsVendorDir (dir : Str) : Bool :=
  ("vendor".data) ∈ splitSeg dir

/-- Predicate written from the spec's words for `PathHasPrefix`: `s` equals
the prefix, or starts with the prefix followed by the separator. -/
def specPathHasPrefix (s p : Str) : Bool :=
  s == p || (p ++ [pathSeparator]).isPrefixOf s

/-- A source position (`token.Pos`). -/
abbrev Pos := Nat

/-- One parameter group of a declaration (an `*ast.Field` inside
`FuncDecl.Type.Params`): the names sharing one type, and `typeStr`, the
canonical string `pkg.TypeOf(field.Type).String()` recorded by the type
checker. -/
structure ParamField where
  names : List Str
  typeStr : Str
deriving DecidableEq

/-- A function declaration (`*ast.FuncDecl`) as the handler consumes it.
The receiver clause and the result types are only ever re-rendered by the
`go/printer` pass in `funcInfo`, so they are kept in their printed form
(`recv` is the text inside the receiver's parentheses, `results` the
printed result types); `doc` is `fDecl.Doc.Text()` when a doc comment is
attached. -/
structure FuncDecl where
  recv : Option Str
  name : Str
  params : List ParamField
  results : Option Str
  doc : Option Str
deriving DecidableEq

/-- A call expression (`*ast.CallExpr`): the handler only ever uses the
position of its `Fun` sub-expression and `len(call.Args)`. -/
structure CallExpr where
  funPos : Pos
  numArgs : Nat
deriving DecidableEq

/-- The syntax-tree node variants the handler pattern-matches on; every
other node kind behaves like `other`. -/
inductive Node where
  | call (c : CallExpr)
  | idn (name : Str)
  | sel (selName : Str)
  | fdecl (d : FuncDecl)
  | other
deriving DecidableEq

/-- The immutable program snapshot the handler queries: `pathEnclosing`
models `prog.PathEnclosingInterval(pos, pos)` (the enclosing-node chain,
innermost first) and `objectOf` models `pkg.ObjectOf(ident)` followed by
the `o.Pos().IsValid()` test (`none` covers a missing object and an
invalid declaration position alike). -/
structure Program where
  pathEnclosing : Pos → List Node
  objectOf : Str → Option Pos

/-- Model of `callExpr` (signature.go): climb the node chain until a call
expression; `funcInfo` performs the identical first-call search on the path
it obtains from `PathEnclosingInterval`. -/
def callExpr : List Node → Option CallExpr
  | [] => none
  | .call c :: _ => some c
  | _ :: rest => callExpr rest

/-- The loop body of `ident` (signature.go): `for i := 0; i < 4 && i <
len(path); i++`, returning the node itself for an `*ast.Ident` and its
`Sel` field for an `*ast.SelectorExpr`. -/
def identLoop : List Node → Nat → Option Str
  | _, 0 => none
  | [], _ => none
  | .idn s :: _, _ + 1 => some s
  | .sel s :: _, _ + 1 => some s
  | .call _ :: rest, k + 1 => identLoop rest k
  | .fdecl _ :: rest, k + 1 => identLoop rest k
  | .other :: rest, k + 1 => identLoop rest k

/-- Model of `ident` (signature.go): look for the first identifier among at
most the first four nodes enclosing the given position. -/
def ident (prog : Program) (pos : Pos) : Option Str :=
  identLoop (prog.pathEnclosing pos) 4

/-- The loop of `funcDecl` (signature.go) over the path at the declaration
position: the first `*ast.FuncDecl` on the chain. -/
def findFuncDecl : List Node → Option FuncDecl
  | [] => none
  | .fdecl d :: _ => some d
  | _ :: rest => findFuncDecl rest

/-- Model of `funcDecl` (signature.go): resolve the callee of the call
expression to its declaring `*ast.FuncDecl` through the symbol table. -/
def funcDecl (prog : Program) (call : CallExpr) : Option FuncDecl :=
  match ident prog call.funPos with
  | none => none
  | some name =>
    match prog.objectOf name with
    | none => none
    | some declPos => findFuncDecl (prog.pathEnclosing declPos)

/-- Model of `parametersAsString` (signature.go): the Go double loop
appending `name.String() + " " + t` for every name of every field, in
order. -/
def parametersAsString (fields : List ParamField) : List Str :=
  fields.foldl
    (fun labels field =>
      field.names.foldl
        (fun labels name => labels ++ [name ++ ' ' :: field.typeStr]) labels)
    []

/-- Model of `nodeAsString` (signature.go) applied to the clone built in
`funcInfo` — an `ast.FuncDecl` with the original receiver, name and
results but an empty parameter list: `go/printer` renders it as
`func (recv) name() results` (no space when there are no results, and no
receiver clause when `recv` is absent). -/
def nodeAsString (d : FuncDecl) : Str :=
  "func ".data ++
    (match d.recv with
     | some r => '(' :: r ++ ") ".data
     | none => []) ++
  d.name ++ "()".data ++
    (match d.results with
     | some res => ' ' :: res
     | none => [])

/-- Model of `funcInfo` (signature.go): find the call expression enclosing
the callee position, resolve its declaration, and return the signature
string (the printed parameterless clone with its first `()` replaced by the
joined labels), the parameter labels and the doc text; any failure returns
the empty triple. -/
def funcInfo (prog : Program) (pos : Pos) : Str × List Str × Str :=
  match callExpr (prog.pathEnclosing pos) with
  | none => ([], [], [])
  | some call =>
    match funcDecl prog call with
    | none => ([], [], [])
    | some fDecl =>
      let doc : Str := fDecl.doc.getD []
      let parameters := parametersAsString fDecl.params
      (replaceFirst (nodeAsString fDecl) ("()".data)
         ('(' :: joinCommaSpace parameters ++ [')']),
       parameters, doc)

/-- The outcome of `typecheck` as far as the handler inspects it: no error,
the recoverable `*invalidNodeError`, or any other (fatal) error. -/
inductive TcError where
  | invalidNode
  | other
deriving DecidableEq

/-- An `lsp.SignatureInformation` (parameter labels inlined, since each
`lsp.ParameterInformation` holds just its label). -/
structure SignatureInformation where
  label : Str
  documentation : Str
  parameters : List Str
deriving DecidableEq

/-- An `lsp.SignatureHelp`. -/
structure SignatureHelp where
  signatures : List SignatureInformation
  activeSignature : Nat
  activeParameter : Nat
deriving DecidableEq

/-- What `handleTextDocumentSignatureHelp` returns: a propagated typecheck
error, the empty result `(nil, nil)`, or a populated result. -/
inductive HandlerResult where
  | error
  | empty
  | result (h : SignatureHelp)
deriving DecidableEq

/-- Model of `handleTextDocumentSignatureHelp` (signature.go).  `tcErr` and
`nodes` are what `h.typecheck` produced for the request position: a
non-`invalidNodeError` error is returned as such; otherwise the first
enclosing call expression is located, `funcInfo` resolves it, an empty
signature string yields the empty result, and otherwise the result is
assembled with `activeParameter` clamped to the argument count. -/
def handleTextDocumentSignatureHelp (prog : Program) (tcErr : Option TcError)
    (nodes : List Node) : HandlerResult :=
  match tcErr with
  | some TcError.other => .error
  | _ =>
    match callExpr nodes with
    | none => .empty
    | some call =>
      match funcInfo prog call.funPos with
      | (signature, parameters, doc) =>
        if signature = [] then .empty
        else
          let info : SignatureInformation :=
            { label := signature, documentation := doc, parameters := parameters }
          let a0 := info.parameters.length
          let a1 := if a0 > 0 then a0 - 1 else a0
          let numArguments := call.numArgs
          let activeParameter := if a1 > numArguments then numArguments else a1
          .result { signatures := [info], activeSignature := 0,
                    activeParameter := activeParameter }

/-- A concrete zero-parameter declaration, `func f()` with no results and no
doc comment. -/
def decl0 : FuncDecl :=
  { recv := none, name := "f".data, params := [], results := none, doc := none }

/-- The call `f()` whose callee sits at position 1. -/
def call0 : CallExpr := { funPos := 1, numArgs := 0 }

/-- The enclosing-node chain at a cursor inside the argument list of
`f()`. -/
def nodes0 : List Node := [.idn ("f".data), .call call0]

/-- A concrete snapshot for the `f()` scenario: position 1 is the callee
identifier inside the call, the symbol `f` resolves to position 10, and the
chain there reaches the declaration of `f`. -/
def prog0 : Program :=
  { pathEnclosing := fun pos =>
      if pos = 1 then [.idn ("f".data), .call call0]
      else if pos = 10 then [.idn ("f".data), .fdecl decl0]
      else [],
    objectOf := fun n => if n = "f".data then some 10 else none }

/-- A concrete two-parameter declaration, `func Add(a, b int) int` with a
doc comment. -/
def declAdd : FuncDecl :=
  { recv := none, name := "Add".data,
    params := [{ names := ["a".data, "b".data], typeStr := "int".data }],
    results := some ("int".data), doc := some ("Add does X\n".data) }

/-- The call `Add(1, )` (one argument already present) whose callee sits at
position 2. -/
def callAdd : CallExpr := { funPos := 2, numArgs := 1 }

/-- The enclosing-node chain at a cursor inside the argument list of
`Add(1, )`. -/
def nodesAdd : List Node := [.idn ("Add".data), .call callAdd]

/-- A concrete snapshot for the `Add(1, )` scenario. -/
def progAdd : Program :=
  { pathEnclosing := fun pos =>
      if pos = 2 then [.idn ("Add".data), .call callAdd]
      else if pos = 20 then [.idn ("Add".data), .fdecl declAdd]
      else [],
    objectOf := fun n => if n = "Add".data then some 20 else none }

/-- A call whose callee chain buries every identifier behind four other
nodes. -/
def callDeep : CallExpr := { funPos := 3, numArgs := 0 }

/-- The node chain for the buried-identifier scenario. -/
def nodesDeep : List Node := [.call callDeep]

/-- A snapshot on which the bounded identifier search of `ident` gives up:
the first four nodes of the callee's chain are neither identifiers nor
selectors. -/
def progDeep : Program :=
  { pathEnclosing := fun pos =>
      if pos = 3 then [.other, .other, .other, .other, .idn ("g".data), .call callDeep]
      else [],
    objectOf := fun _ => none }

/-- The signature information `handleTextDocumentSignatureHelp` assembles
once `funcInfo` has resolved the declaration `d`: the spliced label, the doc
text and the parameter labels. -/
def resolvedInfo (d : FuncDecl) : SignatureInformation :=
  { label := replaceFirst (nodeAsString d) ("()".data)
      ('(' :: joinCommaSpace (parametersAsString d.params) ++ [')']),
    documentation := d.doc.getD [],
    parameters := parametersAsString d.params }

/-- The segment splitter never returns an empty list of segments. -/
theorem splitSeg_ne_nil : ∀ d : Str, splitSeg d ≠ []
  | [] => by simp [splitSeg]
  | c :: rest => by
    by_cases hc : c = '/'
    · simp [splitSeg, hc]
    · simp only [splitSeg, if_neg hc]
      cases h : splitSeg rest with
      | nil => simp
      | cons seg segs => simp

/-- The model of `strings.Contains` decides substring occurrence. -/
theorem strContains_iff_infix : ∀ (s sub : Str), strContains s sub = true ↔ sub <:+: s
  | [], sub => by
    simp [strContains, List.isEmpty_iff, List.infix_nil]
  | c :: rest, sub => by
    simp only [strContains, Bool.or_eq_true, List.isPrefixOf_iff_prefix,
      strContains_iff_infix rest sub, List.infix_cons_iff]

/-- C7: counterexample to the claimed characterization of `PathHasPrefix`.
With the empty prefix the code leaves `prefixSlash` empty and
`strings.HasPrefix(s, "")` holds for every `s`, so `PathHasPrefix("x", "")`
is true although `"x"` neither equals the prefix nor starts with the prefix
followed by the separator. -/
theorem PathHasPrefix_empty_prefix_cex :
    PathHasPrefix ("x".data) [] = true ∧ specPathHasPrefix ("x".data) [] = false := by
  decide

/-- C7 (amended): when the prefix is non-empty and does not end with the
separator, `PathHasPrefix(s, prefix)` is true iff `s` equals the prefix or
starts with the prefix followed by the separator; when the prefix is empty
or already ends with the separator, `PathHasPrefix` is true for every
`s`. -/
theorem PathHasPrefix_characterization (s p : Str) :
    ((p ≠ [] ∧ ¬ [pathSeparator] <:+ p) →
      (PathHasPrefix s p = true ↔ s = p ∨ p ++ [pathSeparator] <+: s)) ∧
    ((p = [] ∨ [pathSeparator] <:+ p) → PathHasPrefix s p = true) := by
  constructor
  · rintro ⟨hne, hns⟩
    have h1 : p.isEmpty = false := by
      cases p with
      | nil => exact absurd rfl hne
      | cons c r => rfl
    have h2 : [pathSeparator].isSuffixOf p = false := by
      cases h : [pathSeparator].isSuffixOf p with
      | false => rfl
      | true => exact absurd (List.isSuffixOf_iff_suffix.mp h) hns
    simp [PathHasPrefix, h1, h2, List.isPrefixOf_iff_prefix]
  · intro h
    rcases h with h | h
    · subst h
      simp [PathHasPrefix, List.isPrefixOf_iff_prefix]
    · have h2 : [pathSeparator].isSuffixOf p = true := List.isSuffixOf_iff_suffix.mpr h
      simp [PathHasPrefix, h2, List.isPrefixOf_iff_prefix]

/-- C7 witness: the amended characterization evaluated on the concrete pair
`("a/b", "a")`. -/
theorem PathHasPrefix_characterization_witness :
    PathHasPrefix ("a/b".data) ("a".data) = true ↔
      "a/b".data = "a".data ∨ "a".data ++ [pathSeparator] <+: "a/b".data :=
  (PathHasPrefix_characterization ("a/b".data) ("a".data)).1 (by decide)

/-- C10: the path-to-URI conversion round-trips through the URI parser for
every absolute path free of escape, query and fragment characters. -/
theorem uriToPath_pathToURI_roundtrip (p : Str)
    (habs : ∃ q, p = '/' :: q) (hpct : '%' ∉ p) (hq : '?' ∉ p) (hf : '#' ∉ p) :
    uriToPath (pathToURI p) = p := by
  obtain ⟨q, rfl⟩ := habs
  have hscheme : ∀ a ∈ "file://".data, ¬(a = '#' ∨ a = '?') := by decide
  have hall : ∀ a ∈ "file://".data ++ '/' :: q, ¬(a = '#' ∨ a = '?') := by
    intro a ha
    rcases List.mem_append.mp ha with h | h
    · exact hscheme a h
    · rintro (rfl | rfl)
      · exact hf h
      · exact hq h
  have hfrag : ("file://".data ++ '/' :: q).takeWhile (fun c => c ≠ '#') =
      "file://".data ++ '/' :: q := by
    refine List.takeWhile_eq_self_iff.mpr ?_
    intro a ha
    simp only [ne_eq, decide_eq_true_eq]
    intro hcontra
    exact hall a ha (Or.inl hcontra)
  have hquery : ("file://".data ++ '/' :: q).takeWhile (fun c => c ≠ '?') =
      "file://".data ++ '/' :: q := by
    refine List.takeWhile_eq_self_iff.mpr ?_
    intro a ha
    simp only [ne_eq, decide_eq_true_eq]
    intro hcontra
    exact hall a ha (Or.inr hcontra)
  have hpre : ("file://".data).isPrefixOf ("file://".data ++ '/' :: q) = true :=
    List.isPrefixOf_iff_prefix.mpr (List.prefix_append _ _)
  unfold uriToPath urlParsePath pathToURI
  simp only [hfrag, hquery, if_pos hpre, List.drop_left]
  rw [List.dropWhile_cons_of_neg (by simp)]

/-- C10 witness: the round trip evaluated on a concrete absolute path. -/
theorem uriToPath_pathToURI_roundtrip_witness :
    uriToPath (pathToURI ("/home/user/main.go".data)) = "/home/user/main.go".data :=
  uriToPath_pathToURI_roundtrip ("/home/user/main.go".data)
    ⟨"home/user/main.go".data, by decide⟩ (by decide) (by decide) (by decide)

/-- A slash-free word followed by a slash is a prefix of a path exactly when
it is the path's first segment and another segment follows. -/
theorem segHead_iff : ∀ (w : Str), '/' ∉ w → ∀ d : Str,
    (w ++ ['/'] <+: d ↔ ∃ segs, splitSeg d = w :: segs ∧ segs ≠ [])
  | [], _, d => by
    cases d with
    | nil => simp [List.prefix_nil, splitSeg]
    | cons c rest =>
      by_cases hc : c = '/'
      · subst hc
        simp [splitSeg, List.cons_prefix_cons, splitSeg_ne_nil rest]
      · simp only [splitSeg, if_neg hc, List.nil_append]
        cases h : splitSeg rest with
        | nil => exact absurd h (splitSeg_ne_nil rest)
        | cons seg segs =>
          simp [List.cons_prefix_cons, Ne.symm hc]
  | a :: w', hw, d => by
    have ha : a ≠ '/' := fun h => hw (h ▸ List.mem_cons_self a w')
    have hw' : '/' ∉ w' := fun h => hw (List.mem_cons_of_mem a h)
    cases d with
    | nil =>
      constructor
      · intro h
        have := List.prefix_nil.mp h
        simp at this
      · rintro ⟨segs, hs, -⟩
        simp [splitSeg] at hs
    | cons c rest =>
      by_cases hc : c = '/'
      · subst hc
        simp [splitSeg, List.cons_append, List.cons_prefix_cons, ha]
      · simp only [splitSeg, if_neg hc, List.cons_append]
        cases h : splitSeg rest with
        | nil => exact absurd h (splitSeg_ne_nil rest)
        | cons seg segs =>
          have IH := segHead_iff w' hw' rest
          rw [h] at IH
          simp only [List.cons_prefix_cons, IH, List.cons.injEq]
          aesop

/-- A slash-free word wrapped in slashes occurs inside a path exactly when
it is one of the path's inner segments: after the first one and before the
last one. -/
theorem segInner_iff (w : Str) (hw : '/' ∉ w) : ∀ d : Str,
    (('/' :: (w ++ ['/'])) <:+: d ↔ w ∈ ((splitSeg d).tail).dropLast)
  | [] => by simp [List.infix_nil, splitSeg]
  | c :: rest => by
    rw [List.infix_cons_iff]
    by_cases hc : c = '/'
    · subst hc
      have hA := segHead_iff w hw rest
      have hIH := segInner_iff w hw rest
      cases h : splitSeg rest with
      | nil => exact absurd h (splitSeg_ne_nil rest)
      | cons seg segs =>
        rw [h] at hA hIH
        simp only [splitSeg, if_pos rfl, h, List.tail_cons, List.cons_prefix_cons,
          true_and, hA, hIH, List.cons.injEq]
        cases segs with
        | nil => simp
        | cons x xs =>
          aesop
    · have hIH := segInner_iff w hw rest
      simp only [splitSeg, if_neg hc]
      cases h : splitSeg rest with
      | nil => exact absurd h (splitSeg_ne_nil rest)
      | cons seg segs =>
        rw [h, List.tail_cons] at hIH
        simp only [List.tail_cons, List.cons_prefix_cons, hIH]
        constructor
        · rintro (⟨hcontra, _⟩ | hmem)
          · exact absurd hcontra.symm hc
          · exact hmem
        · exact fun hmem => Or.inr hmem

/-- C8: counterexample to the claimed characterization of `IsVendorDir`.
The directory `vendor` is itself a path segment literally named `vendor`,
yet the code tests only for the prefix `vendor/` and the inner substring
`/vendor/`, so it returns false. -/
theorem IsVendorDir_bare_vendor_cex :
    IsVendorDir ("vendor".data) = false ∧ specIsVendorDir ("vendor".data) = true := by
  decide

/-- C8 (amended): `IsVendorDir(dir)` is true iff some path segment of `dir`
other than the final one is literally named `vendor` — a trailing (or sole)
`vendor` segment is not detected. -/
theorem IsVendorDir_segments (dir : Str) :
    IsVendorDir dir = true ↔ ("vendor".data) ∈ (splitSeg dir).dropLast := by
  have hw : '/' ∉ "vendor".data := by decide
  have h1 : ("vendor/".data) = "vendor".data ++ ['/'] := by decide
  have h2 : ("/vendor/".data) = '/' :: ("vendor".data ++ ['/']) := by decide
  rw [IsVendorDir, h1, h2, Bool.or_eq_true, List.isPrefixOf_iff_prefix,
    strContains_iff_infix, segHead_iff _ hw, segInner_iff _ hw]
  cases h : splitSeg dir with
  | nil => exact absurd h (splitSeg_ne_nil dir)
  | cons seg segs =>
    cases segs with
    | nil => simp
    | cons x xs =>
      simp only [List.tail_cons, List.dropLast_cons₂, List.mem_cons, List.cons.injEq]
      aesop

/-- C8 witness: the amended characterization evaluated on `a/vendor/b`. -/
theorem IsVendorDir_segments_witness :
    IsVendorDir ("a/vendor/b".data) = true ↔
      ("vendor".data) ∈ (splitSeg ("a/vendor/b".data)).dropLast :=
  IsVendorDir_segments ("a/vendor/b".data)

/-- Replacing a pattern by itself is the identity. -/
theorem replaceFirst_self : ∀ (s old : Str), replaceFirst s old old = s
  | [], old => by
    cases h : old.isPrefixOf [] with
    | false => simp [replaceFirst, h]
    | true =>
      have := List.isPrefixOf_iff_prefix.mp h
      have hnil : old = [] := List.prefix_nil.mp this
      simp [replaceFirst, h, hnil]
  | c :: rest, old => by
    by_cases h : old.isPrefixOf (c :: rest)
    · obtain ⟨t, ht⟩ := List.isPrefixOf_iff_prefix.mp h
      have hd : replaceFirst (c :: rest) old old =
          old ++ (c :: rest).drop old.length := by
        rw [replaceFirst, if_pos h]
      rw [hd, ← ht, List.drop_left]
    · simp only [replaceFirst, if_neg h, replaceFirst_self rest old]

/-- Replacement keeps a non-empty string non-empty when the replacement text
is non-empty. -/
theorem replaceFirst_ne_nil (s old new : Str) (hnew : new ≠ []) (hs : s ≠ []) :
    replaceFirst s old new ≠ [] := by
  cases s with
  | nil => exact absurd rfl hs
  | cons c rest =>
    by_cases h : old.isPrefixOf (c :: rest)
    · rw [replaceFirst, if_pos h]
      simp [List.append_eq_nil, hnew]
    · rw [replaceFirst, if_neg h]
      simp

/-- When the pattern occurs, the replacement text occurs in the result. -/
theorem replaceFirst_occurs : ∀ (s old new : Str), old ≠ [] → old <:+: s →
    new <:+: replaceFirst s old new
  | [], old, new, hold, h => absurd (List.infix_nil.mp h) hold
  | c :: rest, old, new, hold, h => by
    by_cases hp : old.isPrefixOf (c :: rest)
    · rw [replaceFirst, if_pos hp]
      exact ⟨[], (c :: rest).drop old.length, by simp⟩
    · rw [replaceFirst, if_neg hp]
      have hrest : old <:+: rest := by
        rcases List.infix_cons_iff.mp h with hpre | hin
        · exact absurd (List.isPrefixOf_iff_prefix.mpr hpre) hp
        · exact hin
      exact List.infix_cons (replaceFirst_occurs rest old new hold hrest)

/-- The printed parameterless clone always contains the placeholder `()`. -/
theorem paren_infix_nodeAsString (d : FuncDecl) : ("()".data) <:+: nodeAsString d :=
  ⟨"func ".data ++
     (match d.recv with
      | some r => '(' :: r ++ ") ".data
      | none => []) ++ d.name,
   (match d.results with
    | some res => ' ' :: res
    | none => []),
   by simp [nodeAsString]⟩

/-- The printed parameterless clone is never the empty string. -/
theorem nodeAsString_ne_nil (d : FuncDecl) : nodeAsString d ≠ [] := by
  have h : ("func ".data) ≠ ([] : Str) := by decide
  simp [nodeAsString, List.append_eq_nil, h]

/-- Evaluation of `funcInfo` when the call and its declaration resolve. -/
theorem funcInfo_resolved (prog : Program) (pos : Pos) (call : CallExpr)
    (d : FuncDecl)
    (hcall : callExpr (prog.pathEnclosing pos) = some call)
    (hdecl : funcDecl prog call = some d) :
    funcInfo prog pos =
      ((resolvedInfo d).label, (resolvedInfo d).parameters,
       (resolvedInfo d).documentation) := by
  simp [funcInfo, hcall, hdecl, resolvedInfo]

/-- The clamped active-parameter computation of the handler equals
`min (n - 1) m` in truncated natural subtraction. -/
theorem active_clamp (n m : Nat) :
    (if (if n > 0 then n - 1 else n) > m then m else if n > 0 then n - 1 else n) =
      min (n - 1) m := by
  split_ifs <;> omega

/-- Evaluation of the handler when typechecking did not fail fatally, a call
expression encloses the request position and the callee's declaration
resolves. -/
theorem handle_resolved (prog : Program) (tcErr : Option TcError)
    (nodes : List Node) (call call2 : CallExpr) (d : FuncDecl)
    (herr : tcErr ≠ some TcError.other)
    (hcall : callExpr nodes = some call)
    (hcall2 : callExpr (prog.pathEnclosing call.funPos) = some call2)
    (hdecl : funcDecl prog call2 = some d) :
    handleTextDocumentSignatureHelp prog tcErr nodes =
      .result { signatures := [resolvedInfo d], activeSignature := 0,
                activeParameter :=
                  min ((parametersAsString d.params).length - 1) call.numArgs } := by
  have hfi := funcInfo_resolved prog call.funPos call2 d hcall2 hdecl
  have hne : (resolvedInfo d).label ≠ [] :=
    replaceFirst_ne_nil _ _ _ (by simp) (nodeAsString_ne_nil d)
  cases tcErr with
  | none =>
    simp only [handleTextDocumentSignatureHelp, hcall, hfi]
    rw [if_neg hne]
    simp only [resolvedInfo]
    rw [active_clamp]
  | some e =>
    cases e with
    | invalidNode =>
      simp only [handleTextDocumentSignatureHelp, hcall, hfi]
      rw [if_neg hne]
      simp only [resolvedInfo]
      rw [active_clamp]
    | other => exact absurd rfl herr

/-- The bounded identifier loop only ever inspects the first `k` nodes. -/
theorem identLoop_take : ∀ (k : Nat) (path : List Node),
    identLoop path k = identLoop (path.take k) k
  | 0, path => by
    cases path with
    | nil => rfl
    | cons n rest => cases n <;> simp [identLoop]
  | _ + 1, [] => rfl
  | k + 1, n :: rest => by
    cases n with
    | idn s => rfl
    | sel s => rfl
    | call c =>
      simp only [identLoop, List.take_succ_cons]
      exact identLoop_take k rest
    | fdecl d =>
      simp only [identLoop, List.take_succ_cons]
      exact identLoop_take k rest
    | other =>
      simp only [identLoop, List.take_succ_cons]
      exact identLoop_take k rest

/-- The call-expression search fails exactly when the chain holds no call
node. -/
theorem callExpr_eq_none_iff : ∀ (nodes : List Node),
    (callExpr nodes = none ↔ ∀ c : CallExpr, Node.call c ∉ nodes)
  | [] => by simp [callExpr]
  | n :: rest => by
    cases n with
    | call c =>
      constructor
      · intro h
        simp [callExpr] at h
      · intro h
        exact absurd (List.mem_cons_self _ _) (h c)
    | idn s => simp [callExpr, callExpr_eq_none_iff rest]
    | sel s => simp [callExpr, callExpr_eq_none_iff rest]
    | fdecl d => simp [callExpr, callExpr_eq_none_iff rest]
    | other => simp [callExpr, callExpr_eq_none_iff rest]

/-- Go's append-one-at-a-time loop builds the mapped list. -/
theorem foldl_append_singleton {α β : Type} (g : α → β) :
    ∀ (l : List α) (acc : List β),
      l.foldl (fun acc a => acc ++ [g a]) acc = acc ++ l.map g
  | [], acc => by simp
  | a :: l, acc => by
    simp only [List.foldl_cons, List.map_cons]
    rw [foldl_append_singleton g l (acc ++ [g a])]
    simp

/-- The double loop of `parametersAsString`, with an arbitrary accumulator:
it appends one label per declared name, fields and names in order. -/
theorem parametersAsString_go : ∀ (fields : List ParamField) (acc : List Str),
    fields.foldl
      (fun labels field =>
        field.names.foldl
          (fun labels name => labels ++ [name ++ ' ' :: field.typeStr]) labels)
      acc =
    acc ++ fields.flatMap (fun f => f.names.map (fun n => n ++ ' ' :: f.typeStr))
  | [], acc => by simp
  | f :: fs, acc => by
    simp only [List.foldl_cons, List.flatMap_cons]
    rw [foldl_append_singleton (fun n => n ++ ' ' :: f.typeStr) f.names acc,
      parametersAsString_go fs]
    simp

/-- C1: counterexample.  On a snapshot where the call `f()` resolves to the
zero-parameter declaration `func f()`, the handler does not return the empty
result: the printed clone `func f()` is a non-empty signature string, so the
`signature == ""` guard does not fire and a populated result is returned. -/
theorem signatureHelp_zeroParams_cex :
    decl0.params = [] ∧
    handleTextDocumentSignatureHelp prog0 none nodes0 ≠ HandlerResult.empty := by
  decide

/-- C1 (amended): for every request that resolves to a callable declaration
with zero declared parameters, the handler returns a populated result whose
single signature is the printed clone with an empty parameter-label list and
whose active parameter is 0 — the zero-parameter signature is surfaced, not
suppressed. -/
theorem signatureHelp_zeroParams (prog : Program) (tcErr : Option TcError)
    (nodes : List Node) (call call2 : CallExpr) (d : FuncDecl)
    (herr : tcErr ≠ some TcError.other)
    (hcall : callExpr nodes = some call)
    (hcall2 : callExpr (prog.pathEnclosing call.funPos) = some call2)
    (hdecl : funcDecl prog call2 = some d)
    (hzero : d.params = []) :
    handleTextDocumentSignatureHelp prog tcErr nodes =
      HandlerResult.result
        { signatures :=
            [{ label := nodeAsString d, documentation := d.doc.getD [],
               parameters := [] }],
          activeSignature := 0, activeParameter := 0 } := by
  rw [handle_resolved prog tcErr nodes call call2 d herr hcall hcall2 hdecl]
  have hps : parametersAsString d.params = [] := by rw [hzero]; rfl
  have hjoin : ('(' :: joinCommaSpace (parametersAsString d.params) ++ [')'])
      = "()".data := by rw [hps]; decide
  simp only [resolvedInfo, hps, hjoin, replaceFirst_self]
  simp
  exact replaceFirst_self (nodeAsString d) ['(', ')']

/-- C1 witness: the amended statement evaluated on the concrete `f()`
scenario. -/
theorem signatureHelp_zeroParams_witness :
    handleTextDocumentSignatureHelp prog0 none nodes0 =
      HandlerResult.result
        { signatures :=
            [{ label := nodeAsString decl0, documentation := decl0.doc.getD [],
               parameters := [] }],
          activeSignature := 0, activeParameter := 0 } :=
  signatureHelp_zeroParams prog0 none nodes0 call0 call0 decl0
    (by decide) (by decide) (by decide) (by decide) (by decide)

/-- C2: for a resolved callable with parameter-label count `n > 0` and `m`
argument sub-expressions already present at the call site, the returned
active parameter is `min (n - 1) m`, which is at most `n - 1` (and, being a
natural number, at least 0). -/
theorem signatureHelp_activeParameter (prog : Program) (tcErr : Option TcError)
    (nodes : List Node) (call call2 : CallExpr) (d : FuncDecl)
    (herr : tcErr ≠ some TcError.other)
    (hcall : callExpr nodes = some call)
    (hcall2 : callExpr (prog.pathEnclosing call.funPos) = some call2)
    (hdecl : funcDecl prog call2 = some d)
    (hpos : 0 < (parametersAsString d.params).length) :
    handleTextDocumentSignatureHelp prog tcErr nodes =
      .result { signatures := [resolvedInfo d], activeSignature := 0,
                activeParameter :=
                  min ((parametersAsString d.params).length - 1) call.numArgs } ∧
    min ((parametersAsString d.params).length - 1) call.numArgs ≤
      (parametersAsString d.params).length - 1 :=
  ⟨handle_resolved prog tcErr nodes call call2 d herr hcall hcall2 hdecl,
   Nat.min_le_left _ _⟩

/-- C2 witness: the `Add(1, )` scenario — two labels, one argument typed,
active parameter `min (2 - 1) 1 = 1`. -/
theorem signatureHelp_activeParameter_witness :
    handleTextDocumentSignatureHelp progAdd none nodesAdd =
      .result { signatures := [resolvedInfo declAdd], activeSignature := 0,
                activeParameter :=
                  min ((parametersAsString declAdd.params).length - 1)
                    callAdd.numArgs } ∧
    min ((parametersAsString declAdd.params).length - 1) callAdd.numArgs ≤
      (parametersAsString declAdd.params).length - 1 :=
  signatureHelp_activeParameter progAdd none nodesAdd callAdd callAdd declAdd
    (by decide) (by decide) (by decide) (by decide) (by decide)

/-- C3: the parameter labels are exactly one `"name type"` string per
declared name, fields and names in declaration order: the label list is the
order-preserving expansion of the parameter groups, its length is the total
number of declared names, and a two-name group `(a, b int)` expands into the
two labels `"a int"` and `"b int"`. -/
theorem parametersAsString_labels (fields : List ParamField) :
    parametersAsString fields =
      fields.flatMap (fun f => f.names.map (fun n => n ++ ' ' :: f.typeStr)) ∧
    (parametersAsString fields).length =
      (fields.map (fun f => f.names.length)).sum ∧
    parametersAsString [{ names := ["a".data, "b".data], typeStr := "int".data }] =
      ["a int".data, "b int".data] := by
  have h := parametersAsString_go fields []
  rw [List.nil_append] at h
  refine ⟨h, ?_, by decide⟩
  rw [parametersAsString, h]
  clear h
  induction fields with
  | nil => rfl
  | cons f fs ih =>
    simp [List.flatMap_cons, List.length_append, List.length_map, ih]

/-- C4: the signature label returned by `funcInfo` for a resolved
declaration is the printed parameterless clone with its first `()` replaced
by the comma-space-joined labels, and hence contains the joined labels
verbatim as a substring. -/
theorem signature_splice (prog : Program) (pos : Pos) (call : CallExpr)
    (d : FuncDecl)
    (hcall : callExpr (prog.pathEnclosing pos) = some call)
    (hdecl : funcDecl prog call = some d) :
    (funcInfo prog pos).1 =
      replaceFirst (nodeAsString d) ("()".data)
        ('(' :: joinCommaSpace (parametersAsString d.params) ++ [')']) ∧
    joinCommaSpace (parametersAsString d.params) <:+: (funcInfo prog pos).1 := by
  have hfi := funcInfo_resolved prog pos call d hcall hdecl
  constructor
  · rw [hfi]
    exact rfl
  · rw [hfi]
    have h2 := replaceFirst_occurs (nodeAsString d) ("()".data)
      ('(' :: joinCommaSpace (parametersAsString d.params) ++ [')'])
      (by decide) (paren_infix_nodeAsString d)
    exact List.IsInfix.trans ⟨['('], [')'], by simp⟩ h2

/-- C4 witness: the splice property evaluated on the `Add(1, )` scenario. -/
theorem signature_splice_witness :
    (funcInfo progAdd 2).1 =
      replaceFirst (nodeAsString declAdd) ("()".data)
        ('(' :: joinCommaSpace (parametersAsString declAdd.params) ++ [')']) ∧
    joinCommaSpace (parametersAsString declAdd.params) <:+: (funcInfo progAdd 2).1 :=
  signature_splice progAdd 2 callAdd declAdd (by decide) (by decide)

/-- C5: when the enclosing-node chain holds no call expression and
typechecking did not fail fatally, the handler returns the empty result —
not an error. -/
theorem noCall_empty (prog : Program) (tcErr : Option TcError)
    (nodes : List Node)
    (herr : tcErr ≠ some TcError.other)
    (hnone : ∀ c : CallExpr, Node.call c ∉ nodes) :
    handleTextDocumentSignatureHelp prog tcErr nodes = HandlerResult.empty := by
  have hce : callExpr nodes = none := (callExpr_eq_none_iff nodes).mpr hnone
  cases tcErr with
  | none => simp [handleTextDocumentSignatureHelp, hce]
  | some e =>
    cases e with
    | invalidNode => simp [handleTextDocumentSignatureHelp, hce]
    | other => exact absurd rfl herr

/-- C5 witness: a chain of an identifier and an unclassified node yields the
empty result. -/
theorem noCall_empty_witness :
    handleTextDocumentSignatureHelp prog0 none [.idn ("x".data), .other] =
      HandlerResult.empty :=
  noCall_empty prog0 none [.idn ("x".data), .other] (by decide)
    (fun c => by simp)

/-- C6: the callee's head identifier is found by scanning at most the first
four nodes of the callee's enclosing chain — the node's own name for a bare
identifier, the rightmost (selector) member name for a qualified call — and
when no identifier is found within that bound the declaration is unknown and
the handler returns the empty result. -/
theorem ident_bounded_resolution :
    (∀ path : List Node, identLoop path 4 = identLoop (path.take 4) 4) ∧
    (∀ (s : Str) (rest : List Node),
      identLoop (Node.idn s :: rest) 4 = some s) ∧
    (∀ (s : Str) (rest : List Node),
      identLoop (Node.sel s :: rest) 4 = some s) ∧
    (∀ (prog : Program) (call : CallExpr),
      ident prog call.funPos = none → funcDecl prog call = none) ∧
    (∀ (prog : Program) (tcErr : Option TcError) (nodes : List Node)
        (call call2 : CallExpr),
      tcErr ≠ some TcError.other →
      callExpr nodes = some call →
      callExpr (prog.pathEnclosing call.funPos) = some call2 →
      ident prog call2.funPos = none →
      handleTextDocumentSignatureHelp prog tcErr nodes = HandlerResult.empty) := by
  refine ⟨fun path => identLoop_take 4 path, fun s rest => rfl, fun s rest => rfl,
    ?_, ?_⟩
  · intro prog call h
    simp [funcDecl, h]
  · intro prog tcErr nodes call call2 herr hcall hcall2 hident
    have hfd : funcDecl prog call2 = none := by simp [funcDecl, hident]
    have hfi : funcInfo prog call.funPos = ([], [], []) := by
      simp [funcInfo, hcall2, hfd]
    cases tcErr with
    | none => simp [handleTextDocumentSignatureHelp, hcall, hfi]
    | some e =>
      cases e with
      | invalidNode => simp [handleTextDocumentSignatureHelp, hcall, hfi]
      | other => exact absurd rfl herr

/-- C6 witness: on the buried-identifier snapshot the identifier search
gives up after four nodes and the handler returns the empty result. -/
theorem ident_bounded_resolution_witness :
    handleTextDocumentSignatureHelp progDeep none nodesDeep =
      HandlerResult.empty :=
  ident_bounded_resolution.2.2.2.2 progDeep none nodesDeep callDeep callDeep
    (by decide) (by decide) (by decide) (by decide)

/-- C9: the handler is a deterministic function of the snapshot and the
typecheck outcome — two runs on equal inputs return equal results. -/
theorem signatureHelp_deterministic (prog1 prog2 : Program)
    (e1 e2 : Option TcError) (n1 n2 : List Node)
    (hp : prog1 = prog2) (he : e1 = e2) (hn : n1 = n2) :
    handleTextDocumentSignatureHelp prog1 e1 n1 =
      handleTextDocumentSignatureHelp prog2 e2 n2 := by
  subst hp
  subst he
  subst hn
  rfl

/-- C9 witness: two identical requests on the `Add(1, )` snapshot agree. -/
theorem signatureHelp_deterministic_witness :
    handleTextDocumentSignatureHelp progAdd none nodesAdd =
      handleTextDocumentSignatureHelp progAdd none nodesAdd :=
  signatureHelp_deterministic progAdd progAdd none none nodesAdd nodesAdd
    rfl rfl rfl
